import Mathlib

/-!
# Verification of the structured document segmentation & extraction engine

Shallow embedding of `backend/app/services/question_extractor.py`:
the boundary scanner (`find_sections`, `find_questions_in_section`),
the content assembler (`extract_question_content`, the grouping loop of
`extract_questions`), the validator (`validate_extraction_results`) and the
image extractor/classifier (`QuestionImageExtractor.extract_images_from_question`).

A document is modelled through the Document Model Adapter interface: an ordered
list of paragraphs, each carrying its text, the number of runs containing
drawing markup (what the Python image-counting loop over `para.runs` counts),
and the list of resolved embedded-resource payloads (what the Resource Resolver
yields for the paragraph, in emission order).  Python's `str.strip` is modelled
by an explicit whitespace trim; regular expressions are modelled by explicit character
scanners faithful to the patterns in the source.
-/

namespace QExtract

/-- One resolved embedded resource: raw bytes and extension, as returned by the
resource-resolution strategies (`extract_image_from_run` and the XML fallback). -/
structure ImgPayload where
  bytes : List Nat
  ext : String
deriving Repr, DecidableEq

/-- A paragraph as exposed by the document model adapter: plain text, the count
of runs containing drawing markup (`<w:drawing>` / `<pic:pic>` / `<v:imagedata>`),
and the resolved embedded-resource payloads in document order. -/
structure Para where
  text : String
  images : Nat
  payloads : List ImgPayload
deriving Repr, DecidableEq

/-- A paragraph with only text, for documents without embedded resources. -/
def mkPara (t : String) : Para := ⟨t, 0, []⟩

/-- Whitespace for Python's `str.strip` / `\\s` (including the ideographic
space). -/
def isPyWhitespace (c : Char) : Bool :=
  c.isWhitespace || c = '　'

/-- Python's `str.strip()`: drop leading and trailing whitespace. -/
def pyStrip (t : String) : String :=
  ⟨((t.data.dropWhile isPyWhitespace).reverse.dropWhile isPyWhitespace).reverse⟩

/-- Python's `s[:n]` on strings: the first `n` characters. -/
def pyTake (t : String) (n : Nat) : String :=
  ⟨t.data.take n⟩

/-- `doc.paragraphs[i].text.strip()`; out-of-range reads never occur in the
source's guarded loops, `""` is a safe default. -/
def textAt (doc : List Para) (i : Nat) : String :=
  pyStrip (((doc.get? i).map Para.text).getD "")

/-- Number of image-bearing runs of paragraph `i`. -/
def imagesAt (doc : List Para) (i : Nat) : Nat :=
  ((doc.get? i).map Para.images).getD 0

/-- Resolved payloads of paragraph `i`. -/
def payloadsAt (doc : List Para) (i : Nat) : List ImgPayload :=
  ((doc.get? i).map Para.payloads).getD []

/-! ## Pattern matchers

`section_pattern = r'^[一二三四五六]、'`,
`question_pattern = r'^\d+$'`,
dataset heading `r'^（[一二三四五六七八九十]+）$'`,
option marker `r'^[A-DＡ-Ｄ][\s\t]*[、\.．\)]'`.
Python's `\d` also matches non-ASCII Unicode decimal digits; the half-width and
full-width forms are the ones that occur in these documents and are modelled. -/

/-- Characters accepted by Python's `\d` in the modelled documents: ASCII and
full-width decimal digits. -/
def isPyDigit (c : Char) : Bool :=
  (('0' : Char) ≤ c && c ≤ ('9' : Char)) || (('０' : Char) ≤ c && c ≤ ('９' : Char))

/-- Numeric value of a digit accepted by `isPyDigit`. -/
def pyDigitVal (c : Char) : Nat :=
  if ('0' : Char) ≤ c && c ≤ ('9' : Char) then c.toNat - '0'.toNat
  else c.toNat - '０'.toNat

/-- `int(text)` on a string of decimal digits. -/
def parseNat (t : String) : Nat :=
  t.data.foldl (fun acc c => 10 * acc + pyDigitVal c) 0

/-- `re.match(r'^[一二三四五六]、', text)`: first char a CJK numeral 一..六,
second char the enumeration comma. -/
def sectionMatch (t : String) : Bool :=
  match t.data with
  | c1 :: c2 :: _ => (c1 ∈ ['一', '二', '三', '四', '五', '六']) && c2 = '、'
  | _ => false

/-- `re.match(r'^\d+$', text)`: the whole string is one or more decimal digits. -/
def questionNumberMatch (t : String) : Bool :=
  !t.data.isEmpty && t.data.all isPyDigit

/-- CJK numerals admitted inside a dataset (group) heading. -/
def isCJKNumeral (c : Char) : Bool :=
  c ∈ ['一', '二', '三', '四', '五', '六', '七', '八', '九', '十']

/-- Tail of a dataset heading after at least one numeral: more numerals, then
the closing full-width parenthesis ending the string. -/
def dhAfterNumeral : List Char → Bool
  | [] => false
  | ['）'] => true
  | c :: cs => isCJKNumeral c && dhAfterNumeral cs

/-- Tail of a dataset heading after the opening parenthesis: one or more
numerals, then `）` ending the string. -/
def dhTail : List Char → Bool
  | [] => false
  | c :: cs => isCJKNumeral c && dhAfterNumeral cs

/-- `re.match(r'^（[一二三四五六七八九十]+）$', text)`. -/
def datasetHeadingMatch (t : String) : Bool :=
  match t.data with
  | '（' :: rest => dhTail rest
  | _ => false

/-- Letters accepted at the start of an option marker: A–D, half- or full-width. -/
def isOptionLetter (c : Char) : Bool :=
  (('A' : Char) ≤ c && c ≤ ('D' : Char)) || (('Ａ' : Char) ≤ c && c ≤ ('Ｄ' : Char))

/-- `[\s\t]`: whitespace (Python's `\s` includes the ideographic space). -/
def isOptSpace (c : Char) : Bool :=
  c.isWhitespace || c = '　'

/-- Delimiters `[、\.．\)]` closing an option marker. -/
def isOptDelim (c : Char) : Bool :=
  c ∈ ['、', '.', '．', ')']

/-- After the option letter: skip `[\s\t]*`, then require a delimiter. -/
def optTail : List Char → Bool
  | [] => false
  | c :: cs => if isOptSpace c then optTail cs else isOptDelim c

/-- `option_pattern.match(para_text)`: A–D (either width), optional whitespace,
then a delimiter; un-anchored at the right. -/
def optionMatch (t : String) : Bool :=
  match t.data with
  | c :: rest => isOptionLetter c && optTail rest
  | [] => false

/-! ## Boundary scanner: `find_sections` -/

/-- One section: heading text (the `name`), half-open paragraph range
`[start_para, end_para)`. -/
structure Section where
  name : String
  start_para : Nat
  end_para : Nat
deriving Repr, DecidableEq

/-- Second loop of `find_sections`: each collected heading index is paired with
the next heading's index as its `end_para`, the last with the paragraph count. -/
def buildSections (doc : List Para) (n : Nat) : List Nat → List Section
  | [] => []
  | [i] => [⟨textAt doc i, i, n⟩]
  | i :: j :: rest => ⟨textAt doc i, i, j⟩ :: buildSections doc n (j :: rest)

/-- `HumanLogicQuestionExtractor.find_sections`: collect every paragraph whose
stripped text matches the section pattern, then close each section at the next
heading (the last one at the document length). -/
def find_sections (doc : List Para) : List Section :=
  buildSections doc doc.length
    ((List.range doc.length).filter (fun i => sectionMatch (textAt doc i)))

/-! ## Boundary scanner: `find_questions_in_section` -/

/-- A question boundary record as built by the scanner.  `qend` is the dict key
`'end'`; it is assigned when the question is closed (`0` before that, standing
for the key being absent). -/
structure RawQuestion where
  number : Nat
  start : Nat
  number_index : Nat
  group_id : Nat
  group_start : Nat
  qend : Nat
deriving Repr, DecidableEq

/-- The scanner's mutable state between paragraphs. -/
structure ScanState where
  questions : List RawQuestion
  current_start : Nat
  last_boundary : Nat
  in_preface : Bool
  group_id : Nat
  current_group_start : Nat
deriving Repr

/-- `questions[-1]['end'] = e`: rewrite the last question's end, if any. -/
def setEndLast (e : Nat) : List RawQuestion → List RawQuestion
  | [] => []
  | [q] => [{q with qend := e}]
  | q :: q' :: rest => q :: setEndLast e (q' :: rest)

/-- One iteration of the scan loop of `find_questions_in_section`, on
paragraph `i` (dataset heading / question number / ordinary content). -/
def scanStep (doc : List Para) (s : ScanState) (i : Nat) : ScanState :=
  let text := textAt doc i
  if datasetHeadingMatch text then
    { questions := setEndLast s.last_boundary s.questions
      current_start := i
      last_boundary := i
      in_preface := true
      group_id := s.group_id + 1
      current_group_start := i }
  else if questionNumberMatch text then
    let qstart := if s.questions.isEmpty then s.current_start else s.last_boundary
    { questions := setEndLast s.last_boundary s.questions ++
        [⟨parseNat text, qstart, i, s.group_id, s.current_group_start, 0⟩]
      current_start := i
      last_boundary := i
      in_preface := false
      group_id := s.group_id
      current_group_start := s.current_group_start }
  else if !s.in_preface then { s with last_boundary := i + 1 }
  else s

/-- `questions[-1]['end'] = max(last_boundary, questions[-1]['number_index'] + 1)`
at the end of the section scan. -/
def closeLastQuestion (lb : Nat) : List RawQuestion → List RawQuestion
  | [] => []
  | [q] => [{q with qend := max lb (q.number_index + 1)}]
  | q :: q' :: rest => q :: closeLastQuestion lb (q' :: rest)

/-- Initial scanner state at the section start. -/
def initScanState (startPara : Nat) : ScanState :=
  ⟨[], startPara, startPara, false, 0, startPara⟩

/-- The paragraph indices the section scan actually visits:
`range(section['start_para'], section['end_para'])` cut off by the
`i >= len(doc.paragraphs): break` guard. -/
def scannedRange (doc : List Para) (sec : Section) : List Nat :=
  List.range' sec.start_para (min sec.end_para doc.length - sec.start_para)

/-- `HumanLogicQuestionExtractor.find_questions_in_section`: scan the section's
paragraph range left to right and close the final question. -/
def find_questions_in_section (doc : List Para) (sec : Section) : List RawQuestion :=
  let s := (scannedRange doc sec).foldl (scanStep doc) (initScanState sec.start_para)
  closeLastQuestion s.last_boundary s.questions

/-- Well-formedness of the scanner's in-progress question list relative to the
current `last_boundary`: every closed question contains its number line and
ends before the next one starts; the trailing question (whose `'end'` key may
still be pending) has its number line and its provisional end below
`last_boundary`. -/
def QInv : List RawQuestion → Nat → Prop
  | [], _ => True
  | [q], lb => q.start ≤ q.number_index ∧ q.number_index ≤ lb ∧ q.qend ≤ lb
  | q :: q' :: rest, lb =>
    q.start ≤ q.number_index ∧ q.number_index ≤ q.qend ∧ q.qend ≤ q'.start ∧
      QInv (q' :: rest) lb

/-- Well-formedness of the finished question list: ordered, non-overlapping,
each question's range containing its number line, the last one strictly. -/
def QFinal : List RawQuestion → Prop
  | [] => True
  | [q] => q.start ≤ q.number_index ∧ q.number_index < q.qend
  | q :: q' :: rest =>
    q.start ≤ q.number_index ∧ q.number_index ≤ q.qend ∧ q.qend ≤ q'.start ∧
      QFinal (q' :: rest)

/-- Scanner-state invariant before processing paragraph `i`. -/
def ScanInv (s : ScanState) (i : Nat) : Prop :=
  s.last_boundary ≤ i ∧ s.current_start ≤ i ∧ QInv s.questions s.last_boundary

/-! ## Content assembler: `extract_question_content` -/

/-- One paragraph record of an assembled question content. -/
structure ContentPara where
  paragraph_index : Nat
  text : String
  images_count : Nat
  text_length : Nat
deriving Repr, DecidableEq

/-- The assembled content of a paragraph range. -/
structure QuestionContent where
  paragraphs : List ContentPara
  paragraph_count : Nat
  total_images : Nat
  total_text_length : Nat
deriving Repr, DecidableEq

/-- Loop body of `extract_question_content`: accumulate the content records,
the image tally (option-marker paragraphs excluded), and the text length. -/
def contentStep (doc : List Para) (acc : List ContentPara × Nat × Nat) (idx : Nat) :
    List ContentPara × Nat × Nat :=
  if idx < doc.length then
    let t := textAt doc idx
    let imgs := imagesAt doc idx
    let ti := if !optionMatch t then acc.2.1 + imgs else acc.2.1
    let tl := acc.2.2 + t.length
    let content := if t ≠ "" ∨ imgs > 0 then acc.1 ++ [⟨idx, t, imgs, t.length⟩] else acc.1
    (content, ti, tl)
  else acc

/-- `HumanLogicQuestionExtractor.extract_question_content` over the half-open
paragraph range `[qstart, qend)` of the given question dict (only its `start`
and `end` keys are read). -/
def extract_question_content (doc : List Para) (qstart qend : Nat) : QuestionContent :=
  let r := (List.range' qstart (qend - qstart)).foldl (contentStep doc) ([], 0, 0)
  ⟨r.1, r.1.length, r.2.1, r.2.2⟩

/-! ## Validator: `validate_extraction_results` -/

/-- The assembled per-question output record of `extract_questions`
(`question_data` in the source; `paragraph_range` is the `"start-end"` string,
modelled as the pair it prints). -/
structure QuestionData where
  number : Nat
  «section» : String
  number_index : Option Nat
  group_id : Nat
  content : QuestionContent
  paragraph_range : Nat × Nat
deriving Repr, DecidableEq

/-- The validation report. -/
structure ValidationReport where
  total_questions : Nat
  total_images : Nat
  issues : List String
  success_rate : ℚ
deriving Repr, DecidableEq

/-- The numbering-continuity loop of `validate_extraction_results` on the
sorted number list: report the first adjacent pair that is not an increment of
one, then `break`. -/
def numberContinuityIssues : List Nat → List String
  | [] => []
  | [_] => []
  | a :: b :: rest =>
    if b ≠ a + 1 then ["题目编号不连续: " ++ toString a ++ " -> " ++ toString b]
    else numberContinuityIssues (b :: rest)

/-- `numbers.sort()`, ascending. -/
def sortNat (l : List Nat) : List Nat := l.insertionSort (· ≤ ·)

/-- `HumanLogicQuestionExtractor.validate_extraction_results`.  `success_rate`
is Python float arithmetic, modelled exactly over ℚ. -/
def validate_extraction_results (questions : List QuestionData)
    (total_questions total_images : Nat) : ValidationReport :=
  let issues :=
    (if total_questions ≠ 135 then
      ["题目数量异常: 预期135道，实际" ++ toString total_questions ++ "道"] else []) ++
    numberContinuityIssues (sortNat (questions.map (·.number))) ++
    (if total_images < 3000 then
      ["图片数量偏少: 预期3000+张，实际" ++ toString total_images ++ "张"] else [])
  { total_questions := total_questions
    total_images := total_images
    issues := issues
    success_rate := max 0 (((135 : ℚ) - issues.length) / 135 * 100) }

/-! ## Whole-pipeline assembly: `extract_questions` -/

/-- `grouped[gid]` of the `defaultdict` grouping step: the section's questions
carrying group id `gid`, in scan order. -/
def groupQuestions (qs : List RawQuestion) (gid : Nat) : List RawQuestion :=
  qs.filter (fun q => q.group_id == gid)

/-- Python's `min(qs, key=lambda x: x.get('number_index', x['start']))`: first
element of minimal `number_index` (the key is always present in the scanner's
output). -/
def minByNumberIndex : List RawQuestion → Option RawQuestion
  | [] => none
  | q :: qs => some (qs.foldl (fun m x => if x.number_index < m.number_index then x else m) q)

/-- `first_num_idx_by_group[gid]`: the minimal `number_index` of the group. -/
def firstNumIdx (qs : List RawQuestion) (gid : Nat) : Option Nat :=
  (minByNumberIndex (groupQuestions qs gid)).map (·.number_index)

/-- `preface_by_group[gid]`: the content of `[first_q.start, first_q.number_index)`
when that range is non-empty, otherwise no entry. -/
def prefaceOf (doc : List Para) (qs : List RawQuestion) (gid : Nat) :
    Option QuestionContent :=
  match minByNumberIndex (groupQuestions qs gid) with
  | none => none
  | some fq =>
    if fq.start < fq.number_index then
      some (extract_question_content doc fq.start fq.number_index)
    else none

/-- Concatenation of a group preface with a question's own range content, with
the four fields combined exactly as in the source's dict literal. -/
def combineContent (pf raw : QuestionContent) : QuestionContent :=
  { paragraphs := pf.paragraphs ++ raw.paragraphs
    paragraph_count := pf.paragraph_count + raw.paragraph_count
    total_images := pf.total_images + raw.total_images
    total_text_length := pf.total_text_length + raw.total_text_length }

/-- Body of the per-question loop of `extract_questions`: assemble the
question's content, prepending the group preface for non-first questions. -/
def assembleQuestion (doc : List Para) (secName : String) (qs : List RawQuestion)
    (q : RawQuestion) : QuestionData :=
  let raw := extract_question_content doc q.start q.qend
  let first_idx := firstNumIdx qs q.group_id
  let is_first := first_idx.isSome && first_idx == some q.number_index
  let content :=
    match prefaceOf doc qs q.group_id with
    | some pf => if !is_first then combineContent pf raw else raw
    | none => raw
  { number := q.number
    «section» := secName
    number_index := some q.number_index
    group_id := q.group_id
    content := content
    paragraph_range := (q.start, q.qend) }

/-- One value of the `sections` summary mapping of the success result. -/
structure SectionSummary where
  name : String
  count : Nat
  questions : List Nat
  total_images : Nat
deriving Repr, DecidableEq

/-- Insertion into a Python dict modelled as an association list: an existing
key keeps its position and has its value replaced, a new key is appended. -/
def pyDictInsert (d : List (String × SectionSummary)) (kv : String × SectionSummary) :
    List (String × SectionSummary) :=
  match d with
  | [] => [kv]
  | (k, v) :: rest =>
    if k = kv.1 then (k, kv.2) :: rest else (k, v) :: pyDictInsert rest kv

/-- `d[k]` lookup in the association-list dict. -/
def pyDictFind (d : List (String × SectionSummary)) (k : String) : Option SectionSummary :=
  (d.find? (fun kv => kv.1 == k)).map (·.2)

/-- The `sections` dict-comprehension entry for one section: key is the first
two characters of the name, `total_images` re-extracts every question's raw
range content and sums its image tally. -/
def sectionEntry (doc : List Para) (sec : Section) (qs : List RawQuestion) :
    String × SectionSummary :=
  (pyTake sec.name 2,
   { name := sec.name
     count := qs.length
     questions := qs.map (·.number)
     total_images := (qs.map (fun q =>
       (extract_question_content doc q.start q.qend).total_images)).sum })

/-- The dict comprehension `{s['name'][:2]: {...} for s in sections}`. -/
def sectionsDict (doc : List Para) (secQs : List (Section × List RawQuestion)) :
    List (String × SectionSummary) :=
  (secQs.map (fun p => sectionEntry doc p.1 p.2)).foldl pyDictInsert []

/-- The result dict of `extract_questions`.  The failure branch's `validation`
dict carries only the `issues` key, so the report is `none` there and the
issue list is exposed separately. -/
structure ExtractResult where
  success : Bool
  error : Option String
  total_questions : Nat
  total_images : Nat
  sections : List (String × SectionSummary)
  questions : List QuestionData
  validation : Option ValidationReport
  validation_issues : List String
deriving Repr, DecidableEq

/-- `HumanLogicQuestionExtractor.extract_questions`.  The document argument is
the outcome of `Document(docx_path)`: any exception in the `try` block lands in
the `except` branch, which returns the hard-failure dict. -/
def extract_questions (docE : Except String (List Para)) : ExtractResult :=
  match docE with
  | .error e =>
    { success := false
      error := some e
      total_questions := 0
      total_images := 0
      sections := []
      questions := []
      validation := none
      validation_issues := ["提取过程错误: " ++ e] }
  | .ok doc =>
    let sections := find_sections doc
    let secQs := sections.map (fun s => (s, find_questions_in_section doc s))
    let total_questions := (secQs.map (fun p => p.2.length)).sum
    let all_questions := secQs.flatMap (fun p => p.2.map (assembleQuestion doc p.1.name p.2))
    let total_images := (secQs.flatMap (fun p => p.2.map (fun q =>
      (extract_question_content doc q.start q.qend).total_images))).sum
    let validation := validate_extraction_results all_questions total_questions total_images
    { success := true
      error := none
      total_questions := total_questions
      total_images := total_images
      sections := sectionsDict doc secQs
      questions := all_questions
      validation := some validation
      validation_issues := validation.issues }

/-! ## Image extractor & classifier: `QuestionImageExtractor.extract_images_from_question`

The random 8-hex filename suffix is the only non-deterministic part of the
record; it is outside the shallow embedding, so the record keeps the
deterministic fields (`context_text`, `paragraph_index`, `position_in_question`,
`image_type`).  `save_image_data` is a local best-effort write and is modelled
as succeeding. -/

/-- One extracted image record as appended to the `images` list. -/
structure ImageRecord where
  context_text : String
  paragraph_index : Nat
  position_in_question : Nat
  image_type : String
deriving Repr, DecidableEq

/-- `sorted({p['paragraph_index'] for p in content_paras})`, with the fallback
to the parsed `paragraph_range` clamped to the document length when the content
list is empty. -/
def paragraphIndices (doc : List Para) (qd : QuestionData) : List Nat :=
  let fromContent :=
    ((qd.content.paragraphs.map (·.paragraph_index)).dedup).insertionSort (· ≤ ·)
  if fromContent.isEmpty then
    List.range' qd.paragraph_range.1 (min qd.paragraph_range.2 doc.length - qd.paragraph_range.1)
  else fromContent

/-- The `_emit` closure folded over one paragraph's resolved payloads:
deduplicate by the 16-byte prefix hash (`seen_hashes` is scoped to the
paragraph), append a record and advance `image_index` for each kept payload. -/
def emitPayloads (paraIdx : Nat) (ptext : String) (isOption : Bool) :
    List ImgPayload → List (List Nat) → Nat → List ImageRecord → Nat × List ImageRecord
  | [], _, idx, recs => (idx, recs)
  | p :: ps, hashes, idx, recs =>
    let h := p.bytes.take 16
    if h ∈ hashes then emitPayloads paraIdx ptext isOption ps hashes idx recs
    else emitPayloads paraIdx ptext isOption ps (h :: hashes) (idx + 1)
      (recs ++ [⟨pyTake ptext 100, paraIdx, idx, if isOption then "option" else "material"⟩])

/-- Scanner state of the image-extraction loop. -/
structure ImgScanState where
  seen_question_number : Bool
  image_index : Nat
  records : List ImageRecord
deriving Repr, DecidableEq

/-- One iteration of the per-paragraph loop of `extract_images_from_question`:
skip out-of-range indices, update `seen_question_number` (a missing
`number_index` counts as seen), classify, and emit the paragraph's payloads. -/
def imgScanStep (doc : List Para) (qd : QuestionData) (s : ImgScanState) (paraIdx : Nat) :
    ImgScanState :=
  if paraIdx < doc.length then
    let t := textAt doc paraIdx
    let seen := s.seen_question_number ||
      (match qd.number_index with
       | some n => paraIdx == n
       | none => true)
    let isOpt := optionMatch t && seen
    let er := emitPayloads paraIdx t isOpt (payloadsAt doc paraIdx) [] s.image_index s.records
    ⟨seen, er.1, er.2⟩
  else s

/-- `QuestionImageExtractor.extract_images_from_question`. -/
def extract_images_from_question (doc : List Para) (qd : QuestionData) : List ImageRecord :=
  ((paragraphIndices doc qd).foldl (imgScanStep doc qd) ⟨false, 0, []⟩).records

/-! ## Concrete documents used to exercise the claims -/

/-- The three-paragraph section of the end-to-end scenario. -/
def exampleDocBasic : List Para :=
  [mkPara "一、常识判断", mkPara "1", mkPara "历史知识题干"]

/-- Two adjacent question-number lines: the first question's range closes at
the second number line while its own number line is at that same index. -/
def exampleDocAdjacentNumbers : List Para :=
  [mkPara "一、常识判断", mkPara "1", mkPara "2"]

/-- Two sections, each containing one group heading and one question. -/
def exampleDocTwoSections : List Para :=
  [mkPara "一、甲", mkPara "（一）", mkPara "材料", mkPara "1", mkPara "问",
   mkPara "二、乙", mkPara "（一）", mkPara "材料", mkPara "2", mkPara "问"]

/-- A document whose first paragraph precedes the first section heading. -/
def exampleDocPreamble : List Para :=
  [mkPara "前言", mkPara "一、甲"]

/-- A grouped section: group heading, shared material, then two questions. -/
def exampleDocGrouped : List Para :=
  [mkPara "二、资料分析", mkPara "（一）", mkPara "材料正文", mkPara "6",
   mkPara "问题一", mkPara "7", mkPara "问题二"]

/-- A paragraph carrying one embedded image payload. -/
def mkImgPara (t : String) (b : Nat) : Para := ⟨t, 1, [⟨[b], ".png"⟩]⟩

/-- A document with the same option-marker paragraph text `"A、某选项内容"`
both before and after the question-number line, each with an embedded image. -/
def exampleDocOptionImages : List Para :=
  [mkPara "一、测试", mkImgPara "A、某选项内容" 7, mkPara "3", mkImgPara "A、某选项内容" 8]

/-- The question record spanning paragraphs 1–3 of `exampleDocOptionImages`,
with its number line at paragraph 2 (as the pipeline would assemble it). -/
def exampleOptionQD : QuestionData :=
  { number := 3
    «section» := "一、测试"
    number_index := some 2
    group_id := 0
    content := extract_question_content exampleDocOptionImages 1 4
    paragraph_range := (1, 4) }

/-- A minimal question record carrying only a number, for validator tests. -/
def mkNumberedQD (n : Nat) : QuestionData :=
  { number := n
    «section» := "一、常识判断"
    number_index := some 0
    group_id := 0
    content := ⟨[], 0, 0, 0⟩
    paragraph_range := (0, 0) }

/-- Two sections whose names share the first two characters `"一、"`. -/
def exampleDocSharedKey : List Para :=
  [mkPara "一、甲部分", mkPara "1", mkPara "题干A",
   mkPara "一、乙部分", mkPara "2", mkPara "题干B"]

/-! # Theorems -/

/-- C1 (counterexample): on the 3-paragraph document, the extracted question
does not span paragraphs 1–2 with the single content paragraph "历史知识题干":
its range starts at paragraph 0 (the heading line is part of the range) and its
content holds three paragraphs. -/
theorem C1_end_to_end_counterexample :
    ¬ ((extract_questions (.ok exampleDocBasic)).questions.map
        (fun q => (q.paragraph_range, q.content.paragraphs.map (·.text))) =
      [((1, 3), ["历史知识题干"])]) := by
  decide

/-- C1 (amended): the 3-paragraph document yields exactly one Section spanning
the whole document, one implicit Group with id 0, and one Question numbered 1
whose number line is paragraph 1 and whose range spans paragraphs 0–2
(start_index 0, end_index 3, the section heading line included), so its
QuestionContent holds the three paragraphs "一、常识判断", "1" and
"历史知识题干". -/
theorem C1_end_to_end_amended :
    find_sections exampleDocBasic = [⟨"一、常识判断", 0, 3⟩] ∧
    (extract_questions (.ok exampleDocBasic)).total_questions = 1 ∧
    (extract_questions (.ok exampleDocBasic)).questions.map
        (fun q => (q.number, q.group_id, q.number_index, q.paragraph_range)) =
      [(1, 0, some 1, (0, 3))] ∧
    (extract_questions (.ok exampleDocBasic)).questions.map
        (fun q => q.content.paragraphs.map (·.text)) =
      [["一、常识判断", "1", "历史知识题干"]] := by
  refine ⟨rfl, rfl, ?_, ?_⟩ <;> decide

/-- C7: an extraction whose questions are numbered 1, 2 and 4 produces exactly
one numbering-continuity issue, identifying the discontinuity from 2 to 4, and
the continuity scan stops at the first discontinuity: a list with a further gap
(1, 2, 4, 6) still yields that single continuity issue.  The full validator
report contains exactly that one continuity string besides the two
baseline-count issues. -/
theorem C7_continuity_single_issue :
    numberContinuityIssues (sortNat [1, 2, 4]) = ["题目编号不连续: 2 -> 4"] ∧
    numberContinuityIssues (sortNat [1, 2, 4, 6]) = ["题目编号不连续: 2 -> 4"] ∧
    (validate_extraction_results [mkNumberedQD 1, mkNumberedQD 2, mkNumberedQD 4] 3 0).issues =
      ["题目数量异常: 预期135道，实际3道", "题目编号不连续: 2 -> 4",
       "图片数量偏少: 预期3000+张，实际0张"] := by
  refine ⟨?_, ?_, ?_⟩ <;> decide

/-- C8: when opening or reading the source document fails, `extract_questions`
returns the hard-failure record: `success = false`, the error message, zero
totals, and empty sections and questions outputs. -/
theorem C8_fatal_io_hard_failure (e : String) :
    extract_questions (.error e) =
      { success := false
        error := some e
        total_questions := 0
        total_images := 0
        sections := []
        questions := []
        validation := none
        validation_issues := ["提取过程错误: " ++ e] } := rfl

/-- C8 witness: the failure record at a concrete error message. -/
theorem C8_fatal_io_hard_failure_witness :
    extract_questions (.error "无法打开文档") =
      { success := false
        error := some "无法打开文档"
        total_questions := 0
        total_images := 0
        sections := []
        questions := []
        validation := none
        validation_issues := ["提取过程错误: 无法打开文档"] } :=
  C8_fatal_io_hard_failure "无法打开文档"

/-! ## Scanner invariant lemmas -/

theorem QInv_mono : ∀ (qs : List RawQuestion) {lb lb' : Nat},
    QInv qs lb → lb ≤ lb' → QInv qs lb'
  | [], _, _, _, _ => trivial
  | [_], _, _, h, hle => ⟨h.1, le_trans h.2.1 hle, le_trans h.2.2 hle⟩
  | _ :: q' :: rest, _, _, h, hle =>
    ⟨h.1, h.2.1, h.2.2.1, QInv_mono (q' :: rest) h.2.2.2 hle⟩

theorem QInv_setEndLast : ∀ (qs : List RawQuestion) {lb i : Nat},
    QInv qs lb → lb ≤ i → QInv (setEndLast lb qs) i
  | [], _, _, _, _ => trivial
  | [q], _, _, h, hle => ⟨h.1, le_trans h.2.1 hle, hle⟩
  | q :: q' :: rest, lb, i, h, hle => by
    have ih := QInv_setEndLast (q' :: rest) h.2.2.2 hle
    cases rest with
    | nil => exact ⟨h.1, h.2.1, h.2.2.1, ih⟩
    | cons q'' rest' => exact ⟨h.1, h.2.1, h.2.2.1, ih⟩

theorem QInv_appendQuestion : ∀ (qs : List RawQuestion) {lb cs i : Nat} (n g gs : Nat),
    QInv qs lb → lb ≤ i → cs ≤ i →
    QInv (setEndLast lb qs ++ [⟨n, if qs.isEmpty then cs else lb, i, g, gs, 0⟩]) i
  | [], _, _, i, _, _, _, _, _, hcs => ⟨hcs, le_refl i, Nat.zero_le i⟩
  | [q], _, _, i, _, _, _, h, hle, _ =>
    ⟨h.1, h.2.1, le_refl _, hle, le_refl i, Nat.zero_le i⟩
  | q :: q' :: rest, lb, cs, i, n, g, gs, h, hle, hcs => by
    have ih := QInv_appendQuestion (q' :: rest) n g gs h.2.2.2 hle hcs
    cases rest with
    | nil => exact ⟨h.1, h.2.1, h.2.2.1, ih⟩
    | cons q'' rest' => exact ⟨h.1, h.2.1, h.2.2.1, ih⟩

theorem scanStep_inv (doc : List Para) (s : ScanState) (i : Nat) (h : ScanInv s i) :
    ScanInv (scanStep doc s i) (i + 1) := by
  obtain ⟨hlb, hcs, hq⟩ := h
  unfold ScanInv scanStep
  by_cases h1 : datasetHeadingMatch (textAt doc i)
  · simp only [h1, if_true]
    exact ⟨Nat.le_succ i, Nat.le_succ i, QInv_setEndLast _ hq hlb⟩
  · by_cases h2 : questionNumberMatch (textAt doc i)
    · simp only [h1, h2, if_false, if_true]
      exact ⟨Nat.le_succ i, Nat.le_succ i, QInv_appendQuestion _ _ _ _ hq hlb hcs⟩
    · by_cases h3 : s.in_preface
      · simp only [h1, h2, h3, if_false, Bool.not_true]
        exact ⟨le_trans hlb (Nat.le_succ i), le_trans hcs (Nat.le_succ i), hq⟩
      · simp only [h1, h2, h3, if_false, Bool.not_false, if_true]
        exact ⟨le_refl (i + 1), le_trans hcs (Nat.le_succ i),
          QInv_mono _ hq (le_trans hlb (Nat.le_succ i))⟩

theorem foldl_scanStep_inv (doc : List Para) :
    ∀ (n : Nat) (s : ScanState) (i : Nat), ScanInv s i →
      ScanInv ((List.range' i n).foldl (scanStep doc) s) (i + n)
  | 0, s, i, h => h
  | n + 1, s, i, h => by
    have step := scanStep_inv doc s i h
    have ih := foldl_scanStep_inv doc n (scanStep doc s i) (i + 1) step
    rw [List.range'_succ, List.foldl_cons]
    have : i + 1 + n = i + (n + 1) := by omega
    rwa [this] at ih

theorem QFinal_closeLast : ∀ (qs : List RawQuestion) {lb : Nat},
    QInv qs lb → QFinal (closeLastQuestion lb qs)
  | [], _, _ => trivial
  | [q], lb, h =>
    ⟨h.1, Nat.lt_of_lt_of_le (Nat.lt_succ_self _) (le_max_right lb (q.number_index + 1))⟩
  | q :: q' :: rest, lb, h => by
    have ih := QFinal_closeLast (q' :: rest) h.2.2.2
    cases rest with
    | nil => exact ⟨h.1, h.2.1, h.2.2.1, ih⟩
    | cons q'' rest' => exact ⟨h.1, h.2.1, h.2.2.1, ih⟩

theorem QFinal_bounds : ∀ (qs : List RawQuestion), QFinal qs →
    ∀ q ∈ qs, q.start ≤ q.number_index ∧ q.number_index ≤ q.qend
  | [], _, _, hq => absurd hq (List.not_mem_nil _)
  | [q'], h, q, hq => by
    rcases List.mem_singleton.1 hq with rfl
    exact ⟨h.1, le_of_lt h.2⟩
  | q' :: q'' :: rest, h, q, hq => by
    rcases List.mem_cons.1 hq with rfl | hq'
    · exact ⟨h.1, h.2.1⟩
    · exact QFinal_bounds (q'' :: rest) h.2.2.2 q hq'

theorem QFinal_head_start_le : ∀ (q : RawQuestion) (rest : List RawQuestion),
    QFinal (q :: rest) → ∀ b ∈ q :: rest, q.start ≤ b.start
  | _, [], _, b, hb => by
    rcases List.mem_singleton.1 hb with rfl; exact le_refl _
  | q, q' :: rest', h, b, hb => by
    rcases List.mem_cons.1 hb with rfl | hb'
    · exact le_refl _
    · calc q.start ≤ q.number_index := h.1
        _ ≤ q.qend := h.2.1
        _ ≤ q'.start := h.2.2.1
        _ ≤ b.start := QFinal_head_start_le q' rest' h.2.2.2 b hb'

theorem QFinal_pairwise : ∀ (qs : List RawQuestion), QFinal qs →
    List.Pairwise (fun a b => a.qend ≤ b.start) qs
  | [], _ => List.Pairwise.nil
  | [q], _ => List.pairwise_singleton _ q
  | q :: q' :: rest, h => by
    refine List.Pairwise.cons (fun b hb => ?_) (QFinal_pairwise (q' :: rest) h.2.2.2)
    calc q.qend ≤ q'.start := h.2.2.1
      _ ≤ b.start := QFinal_head_start_le q' rest h.2.2.2 b hb

theorem find_questions_QFinal (doc : List Para) (sec : Section) :
    QFinal (find_questions_in_section doc sec) := by
  have h0 : ScanInv (initScanState sec.start_para) sec.start_para :=
    ⟨le_refl _, le_refl _, trivial⟩
  have hf := foldl_scanStep_inv doc (min sec.end_para doc.length - sec.start_para)
    (initScanState sec.start_para) sec.start_para h0
  exact QFinal_closeLast _ hf.2.2

/-- C2 (counterexample): in the document with two adjacent question-number
lines, the first question's range is `[0, 1)` while its number line is
paragraph 1, so `number_line_index < end_index` fails. -/
theorem C2_invariant_counterexample :
    find_sections exampleDocAdjacentNumbers = [⟨"一、常识判断", 0, 3⟩] ∧
    ¬ (∀ q ∈ find_questions_in_section exampleDocAdjacentNumbers ⟨"一、常识判断", 0, 3⟩,
        q.number_index < q.qend) := by
  exact ⟨by decide, by decide⟩

/-- C2 (amended): for every Question produced by the boundary scan,
`start_index ≤ number_line_index ≤ end_index` holds (the number line coincides
with `end_index` exactly when the next question-number line immediately
follows), and the half-open ranges of any two distinct Questions in the same
Section do not overlap. -/
theorem C2_question_ranges_amended (doc : List Para) (sec : Section) :
    (∀ q ∈ find_questions_in_section doc sec,
      q.start ≤ q.number_index ∧ q.number_index ≤ q.qend) ∧
    List.Pairwise (fun a b => ∀ k, a.start ≤ k → k < a.qend →
      ¬ (b.start ≤ k ∧ k < b.qend)) (find_questions_in_section doc sec) := by
  have hf := find_questions_QFinal doc sec
  refine ⟨QFinal_bounds _ hf, (QFinal_pairwise _ hf).imp ?_⟩
  intro a b hab k hk1 hk2 hk3
  omega

/-- C2 witness: the amended invariant evaluated on the basic document's single
question `{number 1, start 0, number_index 1, end 3}`. -/
theorem C2_question_ranges_amended_witness :
    ((⟨1, 0, 1, 0, 0, 3⟩ : RawQuestion) ∈
      find_questions_in_section exampleDocBasic ⟨"一、常识判断", 0, 3⟩) ∧
    ((0 : Nat) ≤ 1 ∧ (1 : Nat) ≤ 3) :=
  ⟨by decide,
   (C2_question_ranges_amended exampleDocBasic ⟨"一、常识判断", 0, 3⟩).1
     ⟨1, 0, 1, 0, 0, 3⟩ (by decide)⟩

/-! ## Group-id counter lemmas -/

theorem scanStep_group_id (doc : List Para) (s : ScanState) (i : Nat) :
    (scanStep doc s i).group_id =
      if datasetHeadingMatch (textAt doc i) then s.group_id + 1 else s.group_id := by
  unfold scanStep
  by_cases h1 : datasetHeadingMatch (textAt doc i)
  · simp [h1]
  · by_cases h2 : questionNumberMatch (textAt doc i)
    · simp [h1, h2]
    · by_cases h3 : s.in_preface <;> simp [h1, h2, h3]

theorem scanStep_questions (doc : List Para) (s : ScanState) (i : Nat) :
    (scanStep doc s i).questions =
      if datasetHeadingMatch (textAt doc i) then setEndLast s.last_boundary s.questions
      else if questionNumberMatch (textAt doc i) then
        setEndLast s.last_boundary s.questions ++
          [⟨parseNat (textAt doc i),
            if s.questions.isEmpty then s.current_start else s.last_boundary,
            i, s.group_id, s.current_group_start, 0⟩]
      else s.questions := by
  unfold scanStep
  by_cases h1 : datasetHeadingMatch (textAt doc i)
  · simp [h1]
  · by_cases h2 : questionNumberMatch (textAt doc i)
    · simp [h1, h2]
    · by_cases h3 : s.in_preface <;> simp [h1, h2, h3]

theorem foldl_scanStep_group_id (doc : List Para) :
    ∀ (l : List Nat) (s : ScanState),
      ((l.foldl (scanStep doc) s)).group_id =
        s.group_id + (l.filter (fun i => datasetHeadingMatch (textAt doc i))).length
  | [], _ => by simp
  | i :: t, s => by
    rw [List.foldl_cons, foldl_scanStep_group_id doc t (scanStep doc s i), List.filter_cons]
    by_cases h : datasetHeadingMatch (textAt doc i) <;>
      simp [h, scanStep_group_id] <;> omega

theorem setEndLast_map_group_id (e : Nat) :
    ∀ qs : List RawQuestion, (setEndLast e qs).map (·.group_id) = qs.map (·.group_id)
  | [] => rfl
  | [_] => rfl
  | q :: q' :: rest => by
    simp only [setEndLast, List.map_cons, List.cons.injEq, true_and]
    have := setEndLast_map_group_id e (q' :: rest)
    simpa using this

theorem closeLastQuestion_map_group_id (lb : Nat) :
    ∀ qs : List RawQuestion, (closeLastQuestion lb qs).map (·.group_id) = qs.map (·.group_id)
  | [] => rfl
  | [_] => rfl
  | q :: q' :: rest => by
    simp only [closeLastQuestion, List.map_cons, List.cons.injEq, true_and]
    have := closeLastQuestion_map_group_id lb (q' :: rest)
    simpa using this

theorem scanStep_gid_pres (doc : List Para) (s : ScanState) (i : Nat)
    (hc : List.Chain' (· ≤ ·) (s.questions.map (·.group_id)))
    (hb : ∀ g ∈ s.questions.map (·.group_id), g ≤ s.group_id) :
    List.Chain' (· ≤ ·) ((scanStep doc s i).questions.map (·.group_id)) ∧
    (∀ g ∈ (scanStep doc s i).questions.map (·.group_id), g ≤ (scanStep doc s i).group_id) := by
  rw [scanStep_questions, scanStep_group_id]
  by_cases h1 : datasetHeadingMatch (textAt doc i)
  · rw [if_pos h1, if_pos h1, setEndLast_map_group_id]
    exact ⟨hc, fun g hg => le_trans (hb g hg) (Nat.le_succ _)⟩
  · rw [if_neg h1, if_neg h1]
    by_cases h2 : questionNumberMatch (textAt doc i)
    · rw [if_pos h2, List.map_append, setEndLast_map_group_id]
      constructor
      · refine List.Chain'.append hc (List.chain'_singleton _) ?_
        intro x hx y hy
        simp only [List.map_cons, List.map_nil, List.head?_cons, Option.mem_some_iff] at hy
        subst hy
        rcases List.mem_getLast?_eq_getLast hx with ⟨hne, rfl⟩
        show _ ≤ s.group_id
        exact hb _ (List.getLast_mem hne)
      · intro g hg
        rcases List.mem_append.1 hg with hg' | hg'
        · exact hb g hg'
        · rcases List.mem_singleton.1 hg' with rfl
          exact le_refl _
    · rw [if_neg h2]
      exact ⟨hc, hb⟩

theorem foldl_scanStep_gid_inv (doc : List Para) :
    ∀ (l : List Nat) (s : ScanState),
      List.Chain' (· ≤ ·) (s.questions.map (·.group_id)) →
      (∀ g ∈ s.questions.map (·.group_id), g ≤ s.group_id) →
      List.Chain' (· ≤ ·) ((l.foldl (scanStep doc) s).questions.map (·.group_id)) ∧
      (∀ g ∈ (l.foldl (scanStep doc) s).questions.map (·.group_id),
        g ≤ (l.foldl (scanStep doc) s).group_id)
  | [], _, hc, hb => ⟨hc, hb⟩
  | i :: t, s, hc, hb => by
    have step := scanStep_gid_pres doc s i hc hb
    exact foldl_scanStep_gid_inv doc t (scanStep doc s i) step.1 step.2

/-- C4 (counterexample): in a document with two Sections that each contain one
group heading, the question of the first Section and the question of the
second Section both carry group id 1, so group ids are not unique across the
Sections of a document and do not form a single whole-scan counter. -/
theorem C4_group_id_counterexample :
    (find_sections exampleDocTwoSections).length = 2 ∧
    (find_sections exampleDocTwoSections).map
      (fun s => (find_questions_in_section exampleDocTwoSections s).map (·.group_id)) =
      [[1], [1]] := by
  exact ⟨by decide, by decide⟩

/-- C4 (amended): the group-id counter is scoped to one Section's scan, not to
the whole document: within each Section it starts at 0 (the implicit group),
is incremented by exactly one for each group heading seen (the final counter
equals the number of group-heading paragraphs scanned), and the group ids
assigned to the Section's questions are bounded by that counter and appear in
non-decreasing scan order; the counter restarts at 0 in every Section, so ids
are not unique across Sections. -/
theorem C4_group_ids_amended (doc : List Para) (sec : Section) :
    ((scannedRange doc sec).foldl (scanStep doc) (initScanState sec.start_para)).group_id =
      ((scannedRange doc sec).filter (fun i => datasetHeadingMatch (textAt doc i))).length ∧
    List.Chain' (· ≤ ·) ((find_questions_in_section doc sec).map (·.group_id)) ∧
    (∀ q ∈ find_questions_in_section doc sec,
      q.group_id ≤
        ((scannedRange doc sec).filter (fun i => datasetHeadingMatch (textAt doc i))).length) := by
  have hcount := foldl_scanStep_group_id doc (scannedRange doc sec) (initScanState sec.start_para)
  have hinv := foldl_scanStep_gid_inv doc (scannedRange doc sec) (initScanState sec.start_para)
    (by simp [initScanState]) (by simp [initScanState])
  refine ⟨by simpa [initScanState] using hcount, ?_, ?_⟩
  · unfold find_questions_in_section
    rw [closeLastQuestion_map_group_id]
    exact hinv.1
  · intro q hq
    unfold find_questions_in_section at hq
    have hmem : q.group_id ∈
        ((scannedRange doc sec).foldl (scanStep doc)
          (initScanState sec.start_para)).questions.map (·.group_id) := by
      rw [← closeLastQuestion_map_group_id
        ((scannedRange doc sec).foldl (scanStep doc) (initScanState sec.start_para)).last_boundary]
      exact List.mem_map_of_mem _ hq
    have hle := hinv.2 q.group_id hmem
    rw [hcount] at hle
    simpa [initScanState] using hle

/-- C4 witness: the amended per-section counter facts evaluated on the first
section of the two-section document. -/
theorem C4_group_ids_amended_witness :
    ((⟨1, 1, 3, 1, 1, 5⟩ : RawQuestion) ∈
      find_questions_in_section exampleDocTwoSections ⟨"一、甲", 0, 5⟩) ∧
    (1 : Nat) ≤ ((scannedRange exampleDocTwoSections ⟨"一、甲", 0, 5⟩).filter
      (fun i => datasetHeadingMatch (textAt exampleDocTwoSections i))).length :=
  ⟨by decide,
   (C4_group_ids_amended exampleDocTwoSections ⟨"一、甲", 0, 5⟩).2.2
     ⟨1, 1, 3, 1, 1, 5⟩ (by decide)⟩

/-! ## Section-partition lemmas -/

theorem buildSections_length (doc : List Para) (n : Nat) :
    ∀ l : List Nat, (buildSections doc n l).length = l.length
  | [] => rfl
  | [_] => rfl
  | _ :: j :: rest => by
    simp [buildSections, buildSections_length doc n (j :: rest)]

theorem buildSections_chain (doc : List Para) (n : Nat) :
    ∀ l : List Nat,
      List.Chain' (fun a b => a.end_para = b.start_para) (buildSections doc n l)
  | [] => List.chain'_nil
  | [i] => List.chain'_singleton _
  | i :: j :: rest => by
    have ih := buildSections_chain doc n (j :: rest)
    cases rest with
    | nil => exact List.chain'_cons.2 ⟨rfl, ih⟩
    | cons j' rest' => exact List.chain'_cons.2 ⟨rfl, ih⟩

theorem buildSections_getLast_end (doc : List Para) (n : Nat) :
    ∀ l : List Nat, ∀ s ∈ (buildSections doc n l).getLast?, s.end_para = n
  | [], s, hs => by simp [buildSections] at hs
  | [i], s, hs => by
    simp only [buildSections, List.getLast?_singleton, Option.mem_some_iff] at hs
    subst hs; rfl
  | i :: j :: rest, s, hs => by
    have h1 : buildSections doc n (i :: j :: rest) =
        ⟨textAt doc i, i, j⟩ :: buildSections doc n (j :: rest) := rfl
    rw [h1] at hs
    cases hcons : buildSections doc n (j :: rest) with
    | nil => cases rest <;> simp [buildSections] at hcons
    | cons b L =>
      rw [hcons, List.getLast?_cons_cons] at hs
      exact buildSections_getLast_end doc n (j :: rest) s (by rw [hcons]; exact hs)

theorem buildSections_head_start (doc : List Para) (n : Nat) :
    ∀ l : List Nat, ∀ s ∈ (buildSections doc n l).head?, ∀ hd ∈ l.head?, s.start_para = hd
  | [], s, hs, _, _ => by simp [buildSections] at hs
  | [i], s, hs, hd, hhd => by
    simp only [buildSections, List.head?_cons, Option.mem_some_iff] at hs hhd
    subst hs; subst hhd; rfl
  | i :: j :: rest, s, hs, hd, hhd => by
    have h1 : buildSections doc n (i :: j :: rest) =
        ⟨textAt doc i, i, j⟩ :: buildSections doc n (j :: rest) := rfl
    rw [h1] at hs
    simp only [List.head?_cons, Option.mem_some_iff] at hs hhd
    subst hs; subst hhd; rfl

theorem buildSections_elem (doc : List Para) (n : Nat) :
    ∀ l : List Nat, List.Chain' (· < ·) l → (∀ i ∈ l, i < n) →
      ∀ s ∈ buildSections doc n l,
        s.name = textAt doc s.start_para ∧ s.start_para ∈ l ∧
          s.start_para < s.end_para ∧ s.end_para ≤ n
  | [], _, _, s, hs => absurd hs (List.not_mem_nil s)
  | [i], _, hb, s, hs => by
    rcases List.mem_singleton.1 hs with rfl
    exact ⟨rfl, List.mem_singleton_self i, hb i (List.mem_singleton_self i), le_refl n⟩
  | i :: j :: rest, hc, hb, s, hs => by
    have hcs := List.chain'_cons.1 hc
    rcases List.mem_cons.1 hs with rfl | hs'
    · exact ⟨rfl, List.mem_cons_self _ _, hcs.1,
        le_of_lt (hb j (List.mem_cons_of_mem _ (List.mem_cons_self _ _)))⟩
    · have ih := buildSections_elem doc n (j :: rest) hcs.2
        (fun x hx => hb x (List.mem_cons_of_mem _ hx)) s hs'
      exact ⟨ih.1, List.mem_cons_of_mem _ ih.2.1, ih.2.2⟩

theorem buildSections_cover (doc : List Para) (n : Nat) :
    ∀ l : List Nat, ∀ k : Nat, (∀ hd ∈ l.head?, hd ≤ k) → k < n → l ≠ [] →
      ∃ s ∈ buildSections doc n l, s.start_para ≤ k ∧ k < s.end_para
  | [], _, _, _, hne => absurd rfl hne
  | [i], k, hhd, hk, _ =>
    ⟨⟨textAt doc i, i, n⟩, List.mem_singleton_self _, hhd i rfl, hk⟩
  | i :: j :: rest, k, hhd, hk, _ => by
    by_cases hkj : k < j
    · exact ⟨⟨textAt doc i, i, j⟩, List.mem_cons_self _ _, hhd i rfl, hkj⟩
    · obtain ⟨s, hs, hs1, hs2⟩ := buildSections_cover doc n (j :: rest) k
        (by intro hd hhd'; rw [List.head?_cons, Option.mem_some_iff] at hhd'; omega)
        hk (List.cons_ne_nil _ _)
      exact ⟨s, List.mem_cons_of_mem _ hs, hs1, hs2⟩

theorem sections_head_start_le : ∀ (s : Section) (rest : List Section),
    List.Chain' (fun a b => a.end_para = b.start_para) (s :: rest) →
    (∀ x ∈ s :: rest, x.start_para ≤ x.end_para) →
    ∀ b ∈ s :: rest, s.start_para ≤ b.start_para
  | _, [], _, _, b, hb => by
    rcases List.mem_singleton.1 hb with rfl; exact le_refl _
  | s, s' :: rest', hc, hbd, b, hb => by
    rcases List.mem_cons.1 hb with rfl | hb'
    · exact le_refl _
    · have hcs := List.chain'_cons.1 hc
      calc s.start_para ≤ s.end_para := hbd s (List.mem_cons_self _ _)
        _ = s'.start_para := hcs.1
        _ ≤ b.start_para := sections_head_start_le s' rest' hcs.2
            (fun x hx => hbd x (List.mem_cons_of_mem _ hx)) b hb'

theorem sections_chain_pairwise : ∀ (secs : List Section),
    List.Chain' (fun a b => a.end_para = b.start_para) secs →
    (∀ s ∈ secs, s.start_para ≤ s.end_para) →
    List.Pairwise (fun a b => a.end_para ≤ b.start_para) secs
  | [], _, _ => List.Pairwise.nil
  | [s], _, _ => List.pairwise_singleton _ s
  | s :: s' :: rest, hc, hb => by
    have hcs := List.chain'_cons.1 hc
    have ih := sections_chain_pairwise (s' :: rest) hcs.2
      (fun x hx => hb x (List.mem_cons_of_mem _ hx))
    refine List.Pairwise.cons (fun b hb' => ?_) ih
    calc s.end_para = s'.start_para := hcs.1
      _ ≤ b.start_para := sections_head_start_le s' rest hcs.2
          (fun x hx => hb x (List.mem_cons_of_mem _ hx)) b hb'

/-- C5 (counterexample): a document whose first paragraph precedes the first
section heading produces one section starting at paragraph 1, so the Sections
do not cover the whole document: paragraph 0 lies in no Section. -/
theorem C5_partition_counterexample :
    find_sections exampleDocPreamble = [⟨"一、甲", 1, 2⟩] ∧
    ¬ (∃ s ∈ find_sections exampleDocPreamble, s.start_para ≤ 0 ∧ 0 < s.end_para) := by
  exact ⟨by decide, by decide⟩

/-- C5 (amended): a document with N section-heading paragraphs yields exactly
N Sections; they are contiguous (each Section ends where the next starts),
non-overlapping, every Section starts at a heading paragraph and is non-empty,
the last Section ends at the document's paragraph count, and together the
Sections cover the document from the first heading onward — paragraphs before
the first heading belong to no Section. -/
theorem C5_sections_amended (doc : List Para) :
    (find_sections doc).length =
      ((List.range doc.length).filter (fun i => sectionMatch (textAt doc i))).length ∧
    List.Chain' (fun a b => a.end_para = b.start_para) (find_sections doc) ∧
    (∀ s ∈ (find_sections doc).getLast?, s.end_para = doc.length) ∧
    (∀ s ∈ find_sections doc, s.name = textAt doc s.start_para ∧
      sectionMatch (textAt doc s.start_para) ∧ s.start_para < s.end_para ∧
      s.end_para ≤ doc.length) ∧
    List.Pairwise (fun a b => a.end_para ≤ b.start_para) (find_sections doc) ∧
    (∀ s0 ∈ (find_sections doc).head?, ∀ k, s0.start_para ≤ k → k < doc.length →
      ∃ s ∈ find_sections doc, s.start_para ≤ k ∧ k < s.end_para) := by
  have hchainl : List.Chain' (· < ·)
      ((List.range doc.length).filter (fun i => sectionMatch (textAt doc i))) :=
    ((List.pairwise_lt_range doc.length).filter _).chain'
  have hbnd : ∀ i ∈ (List.range doc.length).filter (fun i => sectionMatch (textAt doc i)),
      i < doc.length :=
    fun i hi => List.mem_range.1 (List.mem_filter.1 hi).1
  have helem := buildSections_elem doc doc.length _ hchainl hbnd
  refine ⟨buildSections_length doc doc.length _, buildSections_chain doc doc.length _,
    buildSections_getLast_end doc doc.length _, ?_, ?_, ?_⟩
  · intro s hs
    have h := helem s hs
    refine ⟨h.1, by simpa using (List.mem_filter.1 h.2.1).2, h.2.2⟩
  · exact sections_chain_pairwise _ (buildSections_chain doc doc.length _)
      (fun s hs => le_of_lt (helem s hs).2.2.1)
  · intro s0 hs0 k hk1 hk2
    apply buildSections_cover doc doc.length _ k ?_ hk2 ?_
    · intro hd hhd
      have := buildSections_head_start doc doc.length _ s0 hs0 hd hhd
      omega
    · intro hnil
      have hs0' : (buildSections doc doc.length
          ((List.range doc.length).filter (fun i => sectionMatch (textAt doc i)))).head? =
        some s0 := hs0
      rw [hnil] at hs0'
      simp [buildSections] at hs0'

/-- C5 witness: coverage of paragraph 2 of the basic document by its single
section. -/
theorem C5_sections_amended_witness :
    ∃ s ∈ find_sections exampleDocBasic, s.start_para ≤ 2 ∧ 2 < s.end_para :=
  (C5_sections_amended exampleDocBasic).2.2.2.2.2 ⟨"一、常识判断", 0, 3⟩
    (by decide) 2 (by decide) (by decide)

/-! ## Content-assembly closed forms -/

theorem contentStep_eq (doc : List Para) (acc : List ContentPara × Nat × Nat) (idx : Nat) :
    contentStep doc acc idx =
      if idx < doc.length then
        ((if textAt doc idx ≠ "" ∨ imagesAt doc idx > 0 then
            acc.1 ++ [⟨idx, textAt doc idx, imagesAt doc idx, (textAt doc idx).length⟩]
          else acc.1),
         (if !optionMatch (textAt doc idx) then acc.2.1 + imagesAt doc idx else acc.2.1),
         acc.2.2 + (textAt doc idx).length)
      else acc := rfl

theorem contentFold_images (doc : List Para) :
    ∀ (l : List Nat) (acc : List ContentPara × Nat × Nat),
      (l.foldl (contentStep doc) acc).2.1 =
        acc.2.1 + (l.map (fun j =>
          if j < doc.length ∧ ¬ optionMatch (textAt doc j) then imagesAt doc j else 0)).sum
  | [], acc => by simp
  | i :: t, acc => by
    rw [List.foldl_cons, contentFold_images doc t (contentStep doc acc i),
      List.map_cons, List.sum_cons, contentStep_eq]
    by_cases h1 : i < doc.length
    · by_cases h2 : optionMatch (textAt doc i)
      · simp only [h1, h2, if_true, not_true, and_false, if_false]
        simp
      · simp only [h1, h2, if_true, not_false_iff, and_true, if_pos, true_and]
        simp [h2]
        omega
    · simp [h1]

theorem contentFold_textlen (doc : List Para) :
    ∀ (l : List Nat) (acc : List ContentPara × Nat × Nat),
      (l.foldl (contentStep doc) acc).2.2 =
        acc.2.2 + (l.map (fun j =>
          if j < doc.length then (textAt doc j).length else 0)).sum
  | [], acc => by simp
  | i :: t, acc => by
    rw [List.foldl_cons, contentFold_textlen doc t (contentStep doc acc i),
      List.map_cons, List.sum_cons, contentStep_eq]
    by_cases h1 : i < doc.length
    · simp [h1]
      omega
    · simp [h1]

theorem contentFold_paragraphs (doc : List Para) :
    ∀ (l : List Nat) (acc : List ContentPara × Nat × Nat),
      (l.foldl (contentStep doc) acc).1 =
        acc.1 ++ l.filterMap (fun j =>
          if j < doc.length ∧ (textAt doc j ≠ "" ∨ 0 < imagesAt doc j) then
            some ⟨j, textAt doc j, imagesAt doc j, (textAt doc j).length⟩
          else none)
  | [], acc => by simp
  | i :: t, acc => by
    rw [List.foldl_cons, contentFold_paragraphs doc t (contentStep doc acc i),
      List.filterMap_cons, contentStep_eq]
    by_cases h1 : i < doc.length
    · by_cases h2 : textAt doc i ≠ "" ∨ 0 < imagesAt doc i
      · simp [h1, h2]
      · simp [h1, h2]
    · simp [h1]

/-- C9: in `extract_question_content`, images in a paragraph whose stripped
text matches the option-marker pattern are excluded from `total_images`
unconditionally — the summation formula tests only the option pattern, with no
question-number-seen condition — while such a paragraph still contributes its
text length to `total_text_length` and still appears in the content list with
its `images_count`. -/
theorem C9_option_images_excluded (doc : List Para) (qs qe i : Nat)
    (h1 : i ∈ List.range' qs (qe - qs)) (h2 : i < doc.length)
    (h3 : optionMatch (textAt doc i) = true) (h4 : 0 < imagesAt doc i) :
    (extract_question_content doc qs qe).total_images =
      ((List.range' qs (qe - qs)).map (fun j =>
        if j < doc.length ∧ ¬ optionMatch (textAt doc j) then imagesAt doc j else 0)).sum ∧
    (extract_question_content doc qs qe).total_text_length =
      ((List.range' qs (qe - qs)).map (fun j =>
        if j < doc.length then (textAt doc j).length else 0)).sum ∧
    ∃ r ∈ (extract_question_content doc qs qe).paragraphs,
      r.paragraph_index = i ∧ r.images_count = imagesAt doc i ∧
      r.text_length = (textAt doc i).length := by
  refine ⟨?_, ?_, ?_⟩
  · have := contentFold_images doc (List.range' qs (qe - qs)) ([], 0, 0)
    simpa [extract_question_content] using this
  · have := contentFold_textlen doc (List.range' qs (qe - qs)) ([], 0, 0)
    simpa [extract_question_content] using this
  · have hpar := contentFold_paragraphs doc (List.range' qs (qe - qs)) ([], 0, 0)
    refine ⟨⟨i, textAt doc i, imagesAt doc i, (textAt doc i).length⟩, ?_, rfl, rfl, rfl⟩
    show _ ∈ (extract_question_content doc qs qe).paragraphs
    have : (extract_question_content doc qs qe).paragraphs =
        (List.range' qs (qe - qs)).filterMap (fun j =>
          if j < doc.length ∧ (textAt doc j ≠ "" ∨ 0 < imagesAt doc j) then
            some ⟨j, textAt doc j, imagesAt doc j, (textAt doc j).length⟩
          else none) := by
      simpa [extract_question_content] using hpar
    rw [this, List.mem_filterMap]
    exact ⟨i, h1, if_pos ⟨h2, Or.inr h4⟩⟩

/-- C9 witness: on the option-image document, the paragraph before the number
line matches the option pattern, its image is excluded from the tally
(`total_images = 0` over the question range although two image runs lie in it),
yet the paragraph still appears with `images_count = 1`. -/
theorem C9_option_images_excluded_witness :
    (optionMatch (textAt exampleDocOptionImages 1) = true) ∧
    (extract_question_content exampleDocOptionImages 1 4).total_images = 0 ∧
    ∃ r ∈ (extract_question_content exampleDocOptionImages 1 4).paragraphs,
      r.paragraph_index = 1 ∧ r.images_count = imagesAt exampleDocOptionImages 1 ∧
      r.text_length = (textAt exampleDocOptionImages 1).length :=
  ⟨by decide, by decide,
   (C9_option_images_excluded exampleDocOptionImages 1 4 1
     (by decide) (by decide) (by decide) (by decide)).2.2⟩

/-! ## Group-preface propagation -/

/-- C3: for a Group with non-empty preface (its first question's range starts
strictly before its number line) and at least two Questions, the question whose
number line is the group's first (smallest `number_line_index`) is assembled
from its own range only — the preface is not prepended a second time — while
every other question of the group is assembled as exactly the preface's
paragraph list followed by its own range content, with the image and
text-length totals summed accordingly. -/
theorem C3_preface_propagation (doc : List Para) (sec : Section) (q fq : RawQuestion)
    (hq : q ∈ find_questions_in_section doc sec)
    (hfq : minByNumberIndex
      (groupQuestions (find_questions_in_section doc sec) q.group_id) = some fq)
    (hpref : fq.start < fq.number_index)
    (htwo : 2 ≤ (groupQuestions (find_questions_in_section doc sec) q.group_id).length) :
    (q.number_index = fq.number_index →
      (assembleQuestion doc sec.name (find_questions_in_section doc sec) q).content =
        extract_question_content doc q.start q.qend) ∧
    (q.number_index ≠ fq.number_index →
      (assembleQuestion doc sec.name (find_questions_in_section doc sec) q).content.paragraphs =
        (extract_question_content doc fq.start fq.number_index).paragraphs ++
          (extract_question_content doc q.start q.qend).paragraphs ∧
      (assembleQuestion doc sec.name (find_questions_in_section doc sec) q).content.total_images =
        (extract_question_content doc fq.start fq.number_index).total_images +
          (extract_question_content doc q.start q.qend).total_images ∧
      (assembleQuestion doc sec.name
          (find_questions_in_section doc sec) q).content.total_text_length =
        (extract_question_content doc fq.start fq.number_index).total_text_length +
          (extract_question_content doc q.start q.qend).total_text_length ∧
      (assembleQuestion doc sec.name
          (find_questions_in_section doc sec) q).content.paragraph_count =
        (extract_question_content doc fq.start fq.number_index).paragraph_count +
          (extract_question_content doc q.start q.qend).paragraph_count) := by
  unfold assembleQuestion prefaceOf firstNumIdx
  rw [hfq]
  dsimp only [Option.map_some']
  constructor
  · intro he
    rw [he]
    simp [if_pos hpref]
  · intro hne
    have hbeq : (some fq.number_index == some q.number_index) = false := by
      simp only [beq_eq_false_iff_ne, ne_eq, Option.some.injEq]
      exact fun h => hne (h.symm)
    simp [if_pos hpref, hbeq, combineContent]

/-- C3 witness: in the grouped document, question 7 (not first in group 1) is
assembled as the group preface (paragraphs 1–2) followed by its own range. -/
theorem C3_preface_propagation_witness :
    ((⟨7, 5, 5, 1, 1, 7⟩ : RawQuestion) ∈
      find_questions_in_section exampleDocGrouped ⟨"二、资料分析", 0, 7⟩) ∧
    (assembleQuestion exampleDocGrouped "二、资料分析"
        (find_questions_in_section exampleDocGrouped ⟨"二、资料分析", 0, 7⟩)
        ⟨7, 5, 5, 1, 1, 7⟩).content.paragraphs =
      (extract_question_content exampleDocGrouped 1 3).paragraphs ++
        (extract_question_content exampleDocGrouped 5 7).paragraphs :=
  ⟨by decide,
   ((C3_preface_propagation exampleDocGrouped ⟨"二、资料分析", 0, 7⟩
      ⟨7, 5, 5, 1, 1, 7⟩ ⟨6, 1, 3, 1, 1, 5⟩
      (by decide) (by decide) (by decide) (by decide)).2 (by decide)).1⟩

/-! ## Sections-dict lemmas -/

theorem pyDictInsert_cons (k0 : String) (v0 : SectionSummary)
    (rest : List (String × SectionSummary)) (kv : String × SectionSummary) :
    pyDictInsert ((k0, v0) :: rest) kv =
      if k0 = kv.1 then (k0, kv.2) :: rest else (k0, v0) :: pyDictInsert rest kv := rfl

theorem pyDictFind_cons (k0 : String) (v0 : SectionSummary)
    (rest : List (String × SectionSummary)) (k : String) :
    pyDictFind ((k0, v0) :: rest) k = if k0 = k then some v0 else pyDictFind rest k := by
  unfold pyDictFind
  by_cases h : k0 = k
  · rw [List.find?_cons_of_pos _ (by simpa using h), if_pos h]
    rfl
  · rw [List.find?_cons_of_neg _ (by simpa using h), if_neg h]

theorem pyDictFind_insert :
    ∀ (d : List (String × SectionSummary)) (kv : String × SectionSummary) (k : String),
      pyDictFind (pyDictInsert d kv) k = if kv.1 = k then some kv.2 else pyDictFind d k
  | [], kv, k => by
    by_cases h : kv.1 = k <;> simp [pyDictInsert, pyDictFind, h]
  | (k0, v0) :: rest, kv, k => by
    have ih := pyDictFind_insert rest kv k
    rw [pyDictInsert_cons]
    by_cases h1 : k0 = kv.1
    · rw [if_pos h1, pyDictFind_cons, pyDictFind_cons]
      by_cases h3 : k0 = k
      · rw [if_pos h3, if_pos h3, if_pos (h1 ▸ h3)]
      · rw [if_neg h3, if_neg h3, if_neg (fun h => h3 (h1.trans h))]
    · rw [if_neg h1, pyDictFind_cons, pyDictFind_cons]
      by_cases h3 : k0 = k
      · rw [if_pos h3, if_pos h3, if_neg (fun h => h1 (h3.trans h.symm))]
      · rw [if_neg h3, if_neg h3, ih]

theorem pyDictInsert_keys_mem :
    ∀ (d : List (String × SectionSummary)) (kv : String × SectionSummary) (x : String),
      x ∈ (pyDictInsert d kv).map Prod.fst → x ∈ d.map Prod.fst ∨ x = kv.1
  | [], kv, x, hx => by
    rcases List.mem_singleton.1 hx with rfl
    exact Or.inr rfl
  | (k0, v0) :: rest, kv, x, hx => by
    rw [pyDictInsert_cons] at hx
    by_cases h1 : k0 = kv.1
    · rw [if_pos h1, List.map_cons] at hx
      rcases List.mem_cons.1 hx with rfl | hx'
      · exact Or.inr h1
      · exact Or.inl (List.mem_cons_of_mem _ hx')
    · rw [if_neg h1, List.map_cons] at hx
      rcases List.mem_cons.1 hx with rfl | hx'
      · exact Or.inl (List.mem_cons_self _ _)
      · rcases pyDictInsert_keys_mem rest kv x hx' with h | h
        · exact Or.inl (List.mem_cons_of_mem _ h)
        · exact Or.inr h

theorem pyDictInsert_keys_nodup :
    ∀ (d : List (String × SectionSummary)) (kv : String × SectionSummary),
      (d.map Prod.fst).Nodup → ((pyDictInsert d kv).map Prod.fst).Nodup
  | [], kv, _ => by simp [pyDictInsert]
  | (k0, v0) :: rest, kv, h => by
    rw [List.map_cons, List.nodup_cons] at h
    rw [pyDictInsert_cons]
    by_cases h1 : k0 = kv.1
    · rw [if_pos h1, List.map_cons, List.nodup_cons]
      exact ⟨h.1, h.2⟩
    · rw [if_neg h1, List.map_cons, List.nodup_cons]
      refine ⟨fun hmem => ?_, pyDictInsert_keys_nodup rest kv h.2⟩
      rcases pyDictInsert_keys_mem rest kv k0 hmem with hm | hm
      · exact h.1 hm
      · exact h1 hm

theorem pyDictFind_foldl :
    ∀ (entries d : List (String × SectionSummary)) (k : String),
      pyDictFind (entries.foldl pyDictInsert d) k =
        match entries.reverse.find? (fun kv => kv.1 == k) with
        | some kv => some kv.2
        | none => pyDictFind d k
  | [], _, _ => rfl
  | e :: t, d, k => by
    rw [List.foldl_cons, pyDictFind_foldl t (pyDictInsert d e) k, List.reverse_cons,
      List.find?_append]
    cases h : t.reverse.find? (fun kv => kv.1 == k) with
    | some kv => rfl
    | none =>
      rw [pyDictFind_insert]
      by_cases he : e.1 = k
      · have hfe : List.find? (fun kv => kv.1 == k) [e] = some e :=
          List.find?_cons_of_pos _ (by simpa using he)
        rw [if_pos he, Option.none_or, hfe]
      · have hfe : List.find? (fun kv => kv.1 == k) [e] = none := by
          rw [List.find?_cons_of_neg _ (by simpa using he)]
          rfl
        rw [if_neg he, Option.none_or, hfe]

theorem pyDictFoldl_keys_nodup :
    ∀ (entries d : List (String × SectionSummary)),
      (d.map Prod.fst).Nodup → ((entries.foldl pyDictInsert d).map Prod.fst).Nodup
  | [], _, h => h
  | e :: t, d, h =>
    pyDictFoldl_keys_nodup t (pyDictInsert d e) (pyDictInsert_keys_nodup d e h)

/-- C10: in a successful extract result, the `sections` output is keyed by the
first two characters of each section name; its keys are duplicate-free, and a
key lookup yields the entry of the *last* Section whose name starts with those
two characters — so when two Sections share the first two name characters the
later one's entry overwrites the earlier one's — while `total_questions` and
the `questions` list still count every Section's questions. -/
theorem C10_sections_key_overwrite (doc : List Para) :
    ((extract_questions (.ok doc)).sections.map Prod.fst).Nodup ∧
    (∀ k, pyDictFind (extract_questions (.ok doc)).sections k =
      match ((find_sections doc).map (fun s =>
          sectionEntry doc s (find_questions_in_section doc s))).reverse.find?
          (fun kv => kv.1 == k) with
      | some kv => some kv.2
      | none => none) ∧
    (extract_questions (.ok doc)).total_questions =
      ((find_sections doc).map (fun s => (find_questions_in_section doc s).length)).sum ∧
    (extract_questions (.ok doc)).questions.length =
      (extract_questions (.ok doc)).total_questions := by
  refine ⟨?_, ?_, ?_, ?_⟩
  · show ((sectionsDict doc _).map Prod.fst).Nodup
    exact pyDictFoldl_keys_nodup _ [] (by simp)
  · intro k
    show pyDictFind (sectionsDict doc
      ((find_sections doc).map (fun s => (s, find_questions_in_section doc s)))) k = _
    unfold sectionsDict
    rw [pyDictFind_foldl, List.map_map]
    rfl
  · show ((((find_sections doc).map
        (fun s => (s, find_questions_in_section doc s))).map (fun p => p.2.length))).sum = _
    rw [List.map_map]
    rfl
  · show (((find_sections doc).map (fun s => (s, find_questions_in_section doc s))).flatMap
      (fun p => p.2.map (assembleQuestion doc p.1.name p.2))).length = _
    show _ = (((find_sections doc).map
      (fun s => (s, find_questions_in_section doc s))).map (fun p => p.2.length)).sum
    rw [List.length_flatMap, List.map_map, List.map_map]
    apply congrArg List.sum
    apply List.map_congr_left
    intro a ha
    simp [Function.comp]

/-- C10 witness: the two sections of the shared-key document collapse to the
single dict key `"一、"`, whose entry is the later section's, while both
questions are counted. -/
theorem C10_sections_key_overwrite_witness :
    pyDictFind (extract_questions (.ok exampleDocSharedKey)).sections "一、" =
      some ⟨"一、乙部分", 1, [2], 0⟩ ∧
    (extract_questions (.ok exampleDocSharedKey)).sections.length = 1 ∧
    (extract_questions (.ok exampleDocSharedKey)).total_questions = 2 :=
  ⟨by rw [(C10_sections_key_overwrite exampleDocSharedKey).2.1 "一、"]; decide,
   by decide, by decide⟩

/-! ## Image-classifier lemmas -/

theorem emitPayloads_cons (paraIdx : Nat) (ptext : String) (isOption : Bool)
    (p : ImgPayload) (ps : List ImgPayload) (hashes : List (List Nat)) (idx : Nat)
    (recs : List ImageRecord) :
    emitPayloads paraIdx ptext isOption (p :: ps) hashes idx recs =
      if p.bytes.take 16 ∈ hashes then
        emitPayloads paraIdx ptext isOption ps hashes idx recs
      else
        emitPayloads paraIdx ptext isOption ps (p.bytes.take 16 :: hashes) (idx + 1)
          (recs ++ [⟨pyTake ptext 100, paraIdx, idx,
            if isOption then "option" else "material"⟩]) := rfl

theorem emitPayloads_records (paraIdx : Nat) (ptext : String) (isOption : Bool) :
    ∀ (ps : List ImgPayload) (hashes : List (List Nat)) (idx : Nat)
      (recs : List ImageRecord),
      ∀ r ∈ (emitPayloads paraIdx ptext isOption ps hashes idx recs).2,
        r ∈ recs ∨ (r.paragraph_index = paraIdx ∧
          r.image_type = if isOption then "option" else "material")
  | [], _, _, _, _, hr => Or.inl hr
  | p :: ps, hashes, idx, recs, r, hr => by
    rw [emitPayloads_cons] at hr
    by_cases hh : p.bytes.take 16 ∈ hashes
    · rw [if_pos hh] at hr
      exact emitPayloads_records paraIdx ptext isOption ps hashes idx recs r hr
    · rw [if_neg hh] at hr
      rcases emitPayloads_records paraIdx ptext isOption ps _ _ _ r hr with hold | hnew
      · rcases List.mem_append.1 hold with h1 | h1
        · exact Or.inl h1
        · rcases List.mem_singleton.1 h1 with rfl
          exact Or.inr ⟨rfl, rfl⟩
      · exact Or.inr hnew

theorem imgScanStep_lt (doc : List Para) (qd : QuestionData) (s : ImgScanState) (i : Nat)
    (h : i < doc.length) :
    imgScanStep doc qd s i =
      ⟨s.seen_question_number ||
          (match qd.number_index with | some n => i == n | none => true),
        (emitPayloads i (textAt doc i)
          (optionMatch (textAt doc i) &&
            (s.seen_question_number ||
              (match qd.number_index with | some n => i == n | none => true)))
          (payloadsAt doc i) [] s.image_index s.records).1,
        (emitPayloads i (textAt doc i)
          (optionMatch (textAt doc i) &&
            (s.seen_question_number ||
              (match qd.number_index with | some n => i == n | none => true)))
          (payloadsAt doc i) [] s.image_index s.records).2⟩ := by
  unfold imgScanStep
  rw [if_pos h]

theorem imgScanStep_ge (doc : List Para) (qd : QuestionData) (s : ImgScanState) (i : Nat)
    (h : ¬ i < doc.length) :
    imgScanStep doc qd s i = s := by
  unfold imgScanStep
  rw [if_neg h]

theorem imgFold_records (doc : List Para) (qd : QuestionData) (n : Nat)
    (hn : qd.number_index = some n) :
    ∀ (l : List Nat) (s : ImgScanState), List.Pairwise (· < ·) l →
      ∀ r ∈ (l.foldl (imgScanStep doc qd) s).records,
        r ∈ s.records ∨
        ((r.image_type = "option" ↔
          (optionMatch (textAt doc r.paragraph_index) = true ∧
            (s.seen_question_number = true ∨
              (n ∈ l ∧ n ≤ r.paragraph_index ∧ n < doc.length)))) ∧
         r.paragraph_index ∈ l ∧ r.paragraph_index < doc.length)
  | [], _, _, _, hr => Or.inl hr
  | i :: t, s, hpw, r, hr => by
    rw [List.foldl_cons] at hr
    rcases List.pairwise_cons.1 hpw with ⟨hlt, hpw'⟩
    by_cases hi : i < doc.length
    · rw [imgScanStep_lt doc qd s i hi] at hr
      have ih := imgFold_records doc qd n hn t _ hpw' r hr
      rcases ih with hin | ⟨hiff, hmem, hlen⟩
      · -- `r` was emitted while processing paragraph `i`
        have hem := emitPayloads_records i (textAt doc i) _
          (payloadsAt doc i) [] s.image_index s.records r hin
        rcases hem with hold | ⟨hpi, hty⟩
        · exact Or.inl hold
        · refine Or.inr ⟨?_, hpi ▸ List.mem_cons_self i t, hpi ▸ hi⟩
          rw [hty, hpi, hn]
          by_cases hopt : optionMatch (textAt doc i)
          · by_cases hseen : s.seen_question_number
            · simp [hopt, hseen]
            · by_cases heq : i = n
              · subst heq
                simp [hopt, hseen, hi]
              · have hso : (optionMatch (textAt doc i) &&
                    (s.seen_question_number || (i == n))) = false := by
                  simp [hseen, heq]
                rw [hso]
                refine iff_of_false (by decide) ?_
                rintro ⟨-, hcase⟩
                rcases hcase with hcase | ⟨hm, hle, -⟩
                · exact hseen hcase
                · rcases List.mem_cons.1 hm with rfl | hm'
                  · exact heq rfl
                  · exact absurd hle (not_le.2 (hlt n hm'))
          · have hso : (optionMatch (textAt doc i) &&
                (s.seen_question_number ||
                  (match some n with | some n => i == n | none => true))) = false := by
              simp [hopt]
            rw [hso]
            refine iff_of_false (by decide) ?_
            rintro ⟨hcase, -⟩
            exact hopt hcase
      · -- `r` was emitted at a later paragraph
        refine Or.inr ⟨?_, List.mem_cons_of_mem _ hmem, hlen⟩
        rw [hn] at hiff
        rw [hiff]
        apply and_congr_right
        intro _
        simp only [Bool.or_eq_true, beq_iff_eq]
        constructor
        · rintro ((h | h) | h)
          · exact Or.inl h
          · subst h
            exact Or.inr ⟨List.mem_cons_self _ _, le_of_lt (hlt _ hmem), hi⟩
          · exact Or.inr ⟨List.mem_cons_of_mem _ h.1, h.2⟩
        · rintro (h | ⟨hm, hle, hlen'⟩)
          · exact Or.inl (Or.inl h)
          · rcases List.mem_cons.1 hm with rfl | hm'
            · exact Or.inl (Or.inr rfl)
            · exact Or.inr ⟨hm', hle, hlen'⟩
    · rw [imgScanStep_ge doc qd s i hi] at hr
      have ih := imgFold_records doc qd n hn t s hpw' r hr
      rcases ih with hin | ⟨hiff, hmem, hlen⟩
      · exact Or.inl hin
      · refine Or.inr ⟨?_, List.mem_cons_of_mem _ hmem, hlen⟩
        rw [hiff]
        apply and_congr_right
        intro _
        constructor
        · rintro (h | h)
          · exact Or.inl h
          · exact Or.inr ⟨List.mem_cons_of_mem _ h.1, h.2⟩
        · rintro (h | ⟨hm, hle, hlen'⟩)
          · exact Or.inl h
          · rcases List.mem_cons.1 hm with rfl | hm'
            · exact absurd hlen' hi
            · exact Or.inr ⟨hm', hle, hlen'⟩

theorem paragraphIndices_pairwise (doc : List Para) (qd : QuestionData) :
    List.Pairwise (· < ·) (paragraphIndices doc qd) := by
  unfold paragraphIndices
  by_cases h : (((qd.content.paragraphs.map (·.paragraph_index)).dedup).insertionSort
      (· ≤ ·)).isEmpty
  · simp only [h, if_true]
    exact List.pairwise_lt_range' _ _
  · simp only [h, if_false]
    have hs : List.Sorted (· ≤ ·)
        (((qd.content.paragraphs.map (·.paragraph_index)).dedup).insertionSort (· ≤ ·)) :=
      List.sorted_insertionSort _ _
    have hnd : (((qd.content.paragraphs.map (·.paragraph_index)).dedup).insertionSort
        (· ≤ ·)).Nodup :=
      ((List.perm_insertionSort _ _).nodup_iff).2 (List.nodup_dedup _)
    exact hs.lt_of_le hnd

/-- C6: an image extracted for a question whose `number_index` is present is
classified `option` exactly when the stripped text of its paragraph matches
the A–D-plus-delimiter option-marker pattern *and* the question-number line has
already been encountered in that question's scan (the number line is among the
scanned in-range indices and does not lie after the image's paragraph); in
every other case — in particular for the same option-marker text occurring
before the number line — the image is classified `material`. -/
theorem C6_option_classification (doc : List Para) (qd : QuestionData) (n : Nat)
    (hn : qd.number_index = some n) (r : ImageRecord)
    (hr : r ∈ extract_images_from_question doc qd) :
    r.image_type = "option" ↔
      (optionMatch (textAt doc r.paragraph_index) = true ∧
        n ∈ paragraphIndices doc qd ∧ n ≤ r.paragraph_index ∧ n < doc.length) := by
  have h := imgFold_records doc qd n hn (paragraphIndices doc qd) ⟨false, 0, []⟩
    (paragraphIndices_pairwise doc qd) r hr
  rcases h with h0 | ⟨hiff, hmem, hlen⟩
  · exact absurd h0 (List.not_mem_nil r)
  · rw [hiff]
    simp

/-- C6 witness: in the option-image document, the paragraph `"A、某选项内容"`
at index 3 (after the number line, paragraph 2) yields an `option` image, while
the identical paragraph at index 1 (before the number line) yields a
`material` image. -/
theorem C6_option_classification_witness :
    exampleOptionQD.number_index = some 2 ∧
    ((⟨"A、某选项内容", 3, 1, "option"⟩ : ImageRecord) ∈
      extract_images_from_question exampleDocOptionImages exampleOptionQD) ∧
    ((⟨"A、某选项内容", 1, 0, "material"⟩ : ImageRecord) ∈
      extract_images_from_question exampleDocOptionImages exampleOptionQD) ∧
    ((("option" : String) = "option") ↔
      (optionMatch (textAt exampleDocOptionImages 3) = true ∧
        2 ∈ paragraphIndices exampleDocOptionImages exampleOptionQD ∧
        2 ≤ 3 ∧ 2 < exampleDocOptionImages.length)) ∧
    ((("material" : String) = "option") ↔
      (optionMatch (textAt exampleDocOptionImages 1) = true ∧
        2 ∈ paragraphIndices exampleDocOptionImages exampleOptionQD ∧
        2 ≤ 1 ∧ 2 < exampleDocOptionImages.length)) :=
  ⟨rfl, by decide, by decide,
   C6_option_classification exampleDocOptionImages exampleOptionQD 2 rfl
     ⟨"A、某选项内容", 3, 1, "option"⟩ (by decide),
   C6_option_classification exampleDocOptionImages exampleOptionQD 2 rfl
     ⟨"A、某选项内容", 1, 0, "material"⟩ (by decide)⟩

end QExtract

